import Mathlib

/-!
Verification of the person-identity stitching core of the AVA dataset
pipeline: the bounding-box matcher (`train_temp.py`), the identity
propagator (`train_fixed.py`) and the IoU / agreement utilities
(`iou_calculator.py`), shallowly embedded over exact rationals.
-/

/-! ## Data model

Coordinates are normalized floats in the source; we embed them as `ℚ`.
All comparisons the claims depend on (absolute-difference tolerance
checks, IoU arithmetic) are exact at the inputs considered.
-/

/-- The per-coordinate matching tolerance, `0.005` in the source. -/
def eps : ℚ := 5 / 1000

/-- A detection row of `train_without_personID.csv` (columns
`video, frame, x1, y1, x2, y2, action`), fields already parsed. -/
structure DetNoId where
  video : String
  frame : Int
  x1 : ℚ
  y1 : ℚ
  x2 : ℚ
  y2 : ℚ
  action : Int
deriving DecidableEq, Repr

/-- A detection row of `train_personID.csv` (columns
`video, frame, x1, y1, x2, y2, person_id`), fields already parsed. -/
structure DetWithId where
  video : String
  frame : Int
  x1 : ℚ
  y1 : ℚ
  x2 : ℚ
  y2 : ℚ
  person_id : Int
deriving DecidableEq, Repr

/-- An output row of the matcher (`train_temp.csv`). -/
structure MatchedRecord where
  video : String
  frame : Int
  x1 : ℚ
  y1 : ℚ
  x2 : ℚ
  y2 : ℚ
  action : Int
  person_id : Int
deriving DecidableEq, Repr

/-! ## BoxMatcher (`train_temp.py`, lines 39-67) -/

/-- The match condition of the inner loop of `train_temp.py`
(lines 46-53): same video, frame indices equal after integer parsing,
and all four coordinates within `eps` (strict `<`). -/
def boxMatchPred (d : DetNoId) (t : DetWithId) : Bool :=
  decide (d.video = t.video) && decide (d.frame = t.frame) &&
    decide (|d.x1 - t.x1| < eps) && decide (|d.y1 - t.y1| < eps) &&
    decide (|d.x2 - t.x2| < eps) && decide (|d.y2 - t.y2| < eps)

/-- Build the output row `dict_entry`: the fields of `d` with the
given `person_id` (lines 54-55 and 65 of `train_temp.py`). -/
def makeMatched (d : DetNoId) (pid : Int) : MatchedRecord :=
  ⟨d.video, d.frame, d.x1, d.y1, d.x2, d.y2, d.action, pid⟩

/-- The inner loop over `train_personID` for one `data` row: scan in
list order, break at the first match, emitting `person_id - 1`; if the
scan ends without a match, emit `-1` (lines 43-67). -/
def matchOne : List DetWithId → DetNoId → MatchedRecord
  | [], d => makeMatched d (-1)
  | t :: rest, d =>
      if boxMatchPred d t then makeMatched d (t.person_id - 1)
      else matchOne rest d

/-- The full matching pass of `train_temp.py`: one output row appended
per `train_without_personID` row. -/
def BoxMatcher_match (withId : List DetWithId) (withoutId : List DetNoId) :
    List MatchedRecord :=
  withoutId.map (matchOne withId)

/-! ### Reference definition, from the spec's words

For each `withoutIdentity` record, pair it with the first
`withIdentity` record (in `withIdentity` list order) with equal
video, equal frame index, and all four coordinates strictly within
`0.005`; emit exactly one output record per input record. -/

/-- Spec reference: the matching predicate, written from the spec. -/
def specMatchPred (d : DetNoId) (t : DetWithId) : Bool :=
  decide (d.video = t.video ∧ d.frame = t.frame ∧
    |d.x1 - t.x1| < 5 / 1000 ∧ |d.y1 - t.y1| < 5 / 1000 ∧
    |d.x2 - t.x2| < 5 / 1000 ∧ |d.y2 - t.y2| < 5 / 1000)

/-- Spec reference: first-match-wins pairing via `List.find?`. -/
def specMatchOne (withId : List DetWithId) (d : DetNoId) : MatchedRecord :=
  match withId.find? (fun t => specMatchPred d t) with
  | some t => makeMatched d (t.person_id - 1)
  | none => makeMatched d (-1)

/-- Spec reference: one output record per `withoutIdentity` record. -/
def specBoxMatch (withId : List DetWithId) (withoutId : List DetNoId) :
    List MatchedRecord :=
  withoutId.map (specMatchOne withId)

theorem specMatchPred_eq_boxMatchPred (d : DetNoId) (t : DetWithId) :
    specMatchPred d t = boxMatchPred d t := by
  simp [specMatchPred, boxMatchPred, eps, Bool.decide_and, Bool.and_assoc]

theorem matchOne_eq_specMatchOne (withId : List DetWithId) (d : DetNoId) :
    matchOne withId d = specMatchOne withId d := by
  induction withId with
  | nil => rfl
  | cons t rest ih =>
      by_cases h : boxMatchPred d t
      · simp [matchOne, specMatchOne, List.find?, specMatchPred_eq_boxMatchPred, h]
      · simpa [matchOne, specMatchOne, List.find?,
          specMatchPred_eq_boxMatchPred, h] using ih

/-- The `person_id` field of the matcher's output: the first match's
`person_id` minus one, or `-1` when there is no match. -/
theorem matchOne_person_id (withId : List DetWithId) (d : DetNoId) :
    (matchOne withId d).person_id =
      (match withId.find? (fun t => boxMatchPred d t) with
       | some t => t.person_id - 1
       | none => -1) := by
  rw [matchOne_eq_specMatchOne]
  unfold specMatchOne
  simp only [specMatchPred_eq_boxMatchPred]
  cases withId.find? (fun t => boxMatchPred d t) <;> simp [makeMatched]

/-- C1: `BoxMatcher_match` coincides with the reference definition
(first matching `withIdentity` record in list order, equal video and
frame, each coordinate strictly within `0.005`), its output length
equals the `withoutIdentity` length, and a difference of exactly
`0.005` in one coordinate is not a match. -/
theorem C1_boxmatcher_matches_reference :
    (∀ (withId : List DetWithId) (withoutId : List DetNoId),
      BoxMatcher_match withId withoutId = specBoxMatch withId withoutId ∧
      (BoxMatcher_match withId withoutId).length = withoutId.length) ∧
    boxMatchPred ⟨"1", 5, 1/10, 1/10, 3/10, 3/10, 7⟩
      ⟨"1", 5, 1/10 + 5/1000, 1/10, 3/10, 3/10, 3⟩ = false := by
  refine ⟨fun withId withoutId => ⟨?_, ?_⟩, ?_⟩
  · unfold BoxMatcher_match specBoxMatch
    exact List.map_congr_left fun d _ => matchOne_eq_specMatchOne withId d
  · simp [BoxMatcher_match]
  · norm_num [boxMatchPred, eps, abs_lt]

/-- C2: when a match is found the emitted record carries the matched
record's `person_id` minus one; when no record matches the emitted
`person_id` is `-1`; and on the concrete scenario (boxes differing by
`0.001` per coordinate, identity `3`) the output `person_id` is `2`. -/
theorem C2_person_id_transfer :
    (∀ (withId : List DetWithId) (d : DetNoId) (t : DetWithId),
      withId.find? (fun u => boxMatchPred d u) = some t →
      (matchOne withId d).person_id = t.person_id - 1) ∧
    (∀ (withId : List DetWithId) (d : DetNoId),
      withId.find? (fun u => boxMatchPred d u) = none →
      (matchOne withId d).person_id = -1) ∧
    BoxMatcher_match [⟨"1", 5, 101/1000, 101/1000, 301/1000, 301/1000, 3⟩]
        [⟨"1", 5, 1/10, 1/10, 3/10, 3/10, 7⟩] =
      [⟨"1", 5, 1/10, 1/10, 3/10, 3/10, 7, 2⟩] := by
  refine ⟨fun withId d t h => ?_, fun withId d h => ?_, ?_⟩
  · rw [matchOne_person_id, h]
  · rw [matchOne_person_id, h]
  · norm_num [BoxMatcher_match, matchOne, boxMatchPred, makeMatched, eps, abs_lt]

/-- C2 witness: the first part of C2 applied at the concrete scenario. -/
theorem C2_person_id_transfer_witness :
    (matchOne [⟨"1", 5, 101/1000, 101/1000, 301/1000, 301/1000, 3⟩]
      ⟨"1", 5, 1/10, 1/10, 3/10, 3/10, 7⟩).person_id = 3 - 1 :=
  C2_person_id_transfer.1
    [⟨"1", 5, 101/1000, 101/1000, 301/1000, 301/1000, 3⟩]
    ⟨"1", 5, 1/10, 1/10, 3/10, 3/10, 7⟩
    ⟨"1", 5, 101/1000, 101/1000, 301/1000, 301/1000, 3⟩
    (by norm_num [List.find?, boxMatchPred, eps, abs_lt])

/-! ## AgreementScorer: spatial IoU
(`iou_calculator.py`, `IoUCalculator.calculate_spatial_iou` and
`IoUCalculator._is_valid_box`) -/

/-- A bounding box `(x1, y1, x2, y2)`. The Python value is a list; the
length-4 and numeric-type checks of `_is_valid_box` are statically true
for this structure. -/
structure Box where
  x1 : ℚ
  y1 : ℚ
  x2 : ℚ
  y2 : ℚ
deriving DecidableEq, Repr

/-- `IoUCalculator._is_valid_box` (lines 163-173): false when
`x1 >= x2` or `y1 >= y2`; the out-of-range `[0,1]` case only logs a
warning and still returns true. -/
def is_valid_box (b : Box) : Bool :=
  decide (b.x1 < b.x2) && decide (b.y1 < b.y2)

/-- `IoUCalculator.calculate_spatial_iou` (lines 13-41): returns `0`
for invalid boxes, empty intersections and zero unions, otherwise the
intersection-over-union ratio clamped into `[0, 1]`. -/
def calculate_spatial_iou (b1 b2 : Box) : ℚ :=
  if ¬ is_valid_box b1 ∨ ¬ is_valid_box b2 then 0
  else
    let x1i := max b1.x1 b2.x1
    let y1i := max b1.y1 b2.y1
    let x2i := min b1.x2 b2.x2
    let y2i := min b1.y2 b2.y2
    if x2i ≤ x1i ∨ y2i ≤ y1i then 0
    else
      let inter := (x2i - x1i) * (y2i - y1i)
      let a1 := (b1.x2 - b1.x1) * (b1.y2 - b1.y1)
      let a2 := (b2.x2 - b2.x1) * (b2.y2 - b2.y1)
      let u := a1 + a2 - inter
      if u = 0 then 0 else max 0 (min 1 (inter / u))

theorem calculate_spatial_iou_comm (a b : Box) :
    calculate_spatial_iou a b = calculate_spatial_iou b a := by
  simp only [calculate_spatial_iou]
  by_cases ha : is_valid_box a = true <;> by_cases hb : is_valid_box b = true
  · have hg : ¬ (¬ is_valid_box a = true ∨ ¬ is_valid_box b = true) := by
      simp [ha, hb]
    have hg' : ¬ (¬ is_valid_box b = true ∨ ¬ is_valid_box a = true) := by
      simp [ha, hb]
    rw [if_neg hg, if_neg hg', max_comm b.x1 a.x1, max_comm b.y1 a.y1,
      min_comm b.x2 a.x2, min_comm b.y2 a.y2,
      add_comm ((b.x2 - b.x1) * (b.y2 - b.y1)) ((a.x2 - a.x1) * (a.y2 - a.y1))]
  · rw [if_pos (by simp [hb]), if_pos (by simp [hb])]
  · rw [if_pos (by simp [ha]), if_pos (by simp [ha])]
  · rw [if_pos (by simp [ha]), if_pos (by simp [ha])]

theorem calculate_spatial_iou_nonneg (a b : Box) :
    0 ≤ calculate_spatial_iou a b := by
  simp only [calculate_spatial_iou]
  split
  · exact le_refl 0
  · split
    · exact le_refl 0
    · split
      · exact le_refl 0
      · exact le_max_left 0 _

theorem calculate_spatial_iou_le_one (a b : Box) :
    calculate_spatial_iou a b ≤ 1 := by
  simp only [calculate_spatial_iou]
  split
  · exact zero_le_one
  · split
    · exact zero_le_one
    · split
      · exact zero_le_one
      · exact max_le zero_le_one (min_le_left 1 _)

theorem calculate_spatial_iou_self (a : Box) (h : is_valid_box a = true) :
    calculate_spatial_iou a a = 1 := by
  have hx : a.x1 < a.x2 := by
    have := h
    simp only [is_valid_box, Bool.and_eq_true, decide_eq_true_eq] at this
    exact this.1
  have hy : a.y1 < a.y2 := by
    have := h
    simp only [is_valid_box, Bool.and_eq_true, decide_eq_true_eq] at this
    exact this.2
  have harea : (a.x2 - a.x1) * (a.y2 - a.y1) ≠ 0 :=
    ne_of_gt (mul_pos (by linarith) (by linarith))
  simp only [calculate_spatial_iou]
  rw [if_neg (by simp [h]), max_self, max_self, min_self, min_self,
    if_neg (by push_neg; exact ⟨hx, hy⟩), add_sub_cancel_right,
    if_neg harea, div_self harea]
  norm_num

/-- C7: spatial IoU is symmetric, always lies in `[0, 1]`, and equals
`1` on any non-degenerate box compared with itself. -/
theorem C7_iou_symmetry_bounds_self :
    (∀ a b : Box, calculate_spatial_iou a b = calculate_spatial_iou b a) ∧
    (∀ a b : Box,
      0 ≤ calculate_spatial_iou a b ∧ calculate_spatial_iou a b ≤ 1) ∧
    (∀ a : Box, a.x1 < a.x2 → a.y1 < a.y2 → calculate_spatial_iou a a = 1) :=
  ⟨calculate_spatial_iou_comm,
   fun a b => ⟨calculate_spatial_iou_nonneg a b, calculate_spatial_iou_le_one a b⟩,
   fun a hx hy => calculate_spatial_iou_self a (by simp [is_valid_box, hx, hy])⟩

/-- C7 witness: the self-IoU part of C7 at the concrete non-degenerate
box `(0.1, 0.2, 0.5, 0.8)` from the module's own test. -/
theorem C7_iou_symmetry_bounds_self_witness :
    calculate_spatial_iou ⟨1/10, 2/10, 5/10, 8/10⟩ ⟨1/10, 2/10, 5/10, 8/10⟩ = 1 :=
  C7_iou_symmetry_bounds_self.2.2 ⟨1/10, 2/10, 5/10, 8/10⟩
    (by norm_num) (by norm_num)

theorem calculate_spatial_iou_degenerate (a b : Box)
    (h : b.x2 ≤ b.x1 ∨ b.y2 ≤ b.y1 ∨ a.x2 ≤ a.x1 ∨ a.y2 ≤ a.y1) :
    calculate_spatial_iou a b = 0 := by
  simp only [calculate_spatial_iou]
  rw [if_pos]
  simp only [is_valid_box, Bool.and_eq_true, decide_eq_true_eq, not_and_or,
    not_lt]
  rcases h with h | h | h | h
  · exact Or.inr (Or.inl h)
  · exact Or.inr (Or.inr h)
  · exact Or.inl (Or.inl h)
  · exact Or.inl (Or.inr h)

theorem calculate_spatial_iou_no_overlap (a b : Box)
    (h : min a.x2 b.x2 ≤ max a.x1 b.x1 ∨ min a.y2 b.y2 ≤ max a.y1 b.y1) :
    calculate_spatial_iou a b = 0 := by
  simp only [calculate_spatial_iou]
  by_cases hv : (¬ is_valid_box a = true ∨ ¬ is_valid_box b = true)
  · rw [if_pos hv]
  · rw [if_neg hv, if_pos h]

/-- C8: spatial IoU returns `0` (total function, no exception) whenever
either box is degenerate (`x1 ≥ x2` or `y1 ≥ y2`) or the boxes do not
overlap, and in particular the zero-width box `(0.5, 0.5, 0.5, 0.9)`
gives `0` against every box. -/
theorem C8_iou_degenerate_zero :
    (∀ a b : Box, (b.x2 ≤ b.x1 ∨ b.y2 ≤ b.y1 ∨ a.x2 ≤ a.x1 ∨ a.y2 ≤ a.y1) →
      calculate_spatial_iou a b = 0) ∧
    (∀ a b : Box,
      (min a.x2 b.x2 ≤ max a.x1 b.x1 ∨ min a.y2 b.y2 ≤ max a.y1 b.y1) →
      calculate_spatial_iou a b = 0) ∧
    (∀ b : Box, calculate_spatial_iou ⟨5/10, 5/10, 5/10, 9/10⟩ b = 0) :=
  ⟨calculate_spatial_iou_degenerate, calculate_spatial_iou_no_overlap,
   fun b => calculate_spatial_iou_degenerate _ b (by norm_num)⟩

/-- C8 witness: the degenerate-box part of C8 applied at the zero-width
box against the valid box `(0.2, 0.3, 0.6, 0.9)` from the module test. -/
theorem C8_iou_degenerate_zero_witness :
    calculate_spatial_iou ⟨5/10, 5/10, 5/10, 9/10⟩ ⟨2/10, 3/10, 6/10, 9/10⟩ = 0 :=
  C8_iou_degenerate_zero.1 ⟨5/10, 5/10, 5/10, 9/10⟩ ⟨2/10, 3/10, 6/10, 9/10⟩
    (by norm_num)

/-! ## AgreementScorer: annotation agreement
(`iou_calculator.py`, `IoUCalculator.calculate_annotation_agreement`).

The `std_spatial_iou` entry of the Python report is an irrational
square root and is not used by any property here; it is left out of the
rational-valued report record. -/

/-- A row of an annotation data frame (columns `video_name, timestamp,
x1, y1, x2, y2, action_label, person_id`). -/
structure AnnRow where
  video : String
  timestamp : ℚ
  x1 : ℚ
  y1 : ℚ
  x2 : ℚ
  y2 : ℚ
  action_label : Int
  person_id : Int
deriving DecidableEq, Repr

/-- The box `[x1, y1, x2, y2]` of an annotation row. -/
def rowBox (r : AnnRow) : Box := ⟨r.x1, r.y1, r.x2, r.y2⟩

/-- The join mask of lines 91-95: exact equality of `video_name`,
`timestamp` and `person_id` against `row1`. -/
def keyMatch (row1 r2 : AnnRow) : Bool :=
  decide (r2.video = row1.video) && decide (r2.timestamp = row1.timestamp) &&
    decide (r2.person_id = row1.person_id)

/-- One entry of the `matches` list (lines 108-116). -/
structure AgreementMatch where
  video : String
  timestamp : ℚ
  person_id : Int
  spatial_iou : ℚ
  label_match : Bool
  box1 : Box
  box2 : Box
deriving DecidableEq, Repr

/-- Build the `matches` entry for a joined pair (lines 100-116). -/
def mkAgreementMatch (row1 row2 : AnnRow) : AgreementMatch :=
  ⟨row1.video, row1.timestamp, row1.person_id,
   calculate_spatial_iou (rowBox row1) (rowBox row2),
   decide (row1.action_label = row2.action_label),
   rowBox row1, rowBox row2⟩

/-- The join loop of lines 89-116: for each `row1` of the first set,
take the first row of the second set matching on the key (iloc 0), if
any. -/
def agreementMatchList (ann1 ann2 : List AnnRow) : List AgreementMatch :=
  ann1.filterMap fun row1 =>
    match ann2.find? (fun r2 => keyMatch row1 r2) with
    | some row2 => some (mkAgreementMatch row1 row2)
    | none => none

/-- `np.median`: middle element of the sorted scores, or the average of
the two middle elements for an even count. -/
def medianQ (xs : List ℚ) : ℚ :=
  let sorted := xs.mergeSort (fun a b => decide (a ≤ b))
  let n := xs.length
  if n = 0 then 0
  else if n % 2 = 1 then sorted.getD (n / 2) 0
  else (sorted.getD (n / 2 - 1) 0 + sorted.getD (n / 2) 0) / 2

/-- The aggregate report of lines 117-140 (the zero-valued report when
no pair joins). -/
structure AgreementReport where
  mean_spatial_iou : ℚ
  median_spatial_iou : ℚ
  label_accuracy : ℚ
  total_matches : Nat
  high_iou_matches : Nat
  low_iou_samples : List AgreementMatch
deriving Repr

/-- `IoUCalculator.calculate_annotation_agreement` (lines 82-143):
optional video filter, first-match join on `(video_name, timestamp,
person_id)`, and the aggregated statistics; `threshold` is the
calculator's `min_iou_threshold` (default `0.5`). -/
def calculate_annotation_agreement (threshold : ℚ) (ann1 ann2 : List AnnRow)
    (videoFilter : Option String) : AgreementReport :=
  let a1 := match videoFilter with
    | some v => ann1.filter (fun r => decide (r.video = v))
    | none => ann1
  let a2 := match videoFilter with
    | some v => ann2.filter (fun r => decide (r.video = v))
    | none => ann2
  let ms := agreementMatchList a1 a2
  if ms.isEmpty then ⟨0, 0, 0, 0, 0, []⟩
  else
    let ious := ms.map (fun m => m.spatial_iou)
    ⟨ious.sum / (ms.length : ℚ),
     medianQ ious,
     ((ms.filter (fun m => m.label_match)).length : ℚ) / (ms.length : ℚ),
     ms.length,
     (ms.filter (fun m => decide (threshold ≤ m.spatial_iou))).length,
     ms.filter (fun m => decide (m.spatial_iou < threshold))⟩

/-! ### C9: agreement of a set with itself -/

/-- The join key of an annotation row. -/
def annKey (r : AnnRow) : String × ℚ × Int := (r.video, r.timestamp, r.person_id)

theorem keyMatch_self (r : AnnRow) : keyMatch r r = true := by
  simp [keyMatch]

theorem keyMatch_eq_false_of_key_ne (row1 r2 : AnnRow) (h : annKey r2 ≠ annKey row1) :
    keyMatch row1 r2 = false := by
  simp only [keyMatch, annKey, ne_eq, Prod.mk.injEq, not_and_or] at h ⊢
  rcases h with h | h | h <;> simp [h]

/-- Under pairwise-distinct join keys, the first row of the set joining
with a member is that member itself. -/
theorem find?_keyMatch_self (S : List AnnRow)
    (hK : S.Pairwise (fun r1 r2 => annKey r1 ≠ annKey r2)) :
    ∀ r ∈ S, S.find? (fun r2 => keyMatch r r2) = some r := by
  induction S with
  | nil => intro r hr; cases hr
  | cons x xs ih =>
      intro r hr
      rcases List.mem_cons.mp hr with rfl | hr
      · simp [List.find?, keyMatch_self]
      · have hx : annKey x ≠ annKey r := (List.pairwise_cons.mp hK).1 r hr
        have hfalse : keyMatch r x = false :=
          keyMatch_eq_false_of_key_ne r x hx
        have tail := ih (List.pairwise_cons.mp hK).2 r hr
        simp [List.find?, hfalse, tail]

theorem filterMap_eq_map_of_forall {α β : Type} (l : List α) (f : α → Option β)
    (g : α → β) (h : ∀ a ∈ l, f a = some (g a)) : l.filterMap f = l.map g := by
  induction l with
  | nil => rfl
  | cons x xs ih =>
      rw [List.filterMap_cons, h x (List.mem_cons_self x xs), List.map_cons,
        ih fun a ha => h a (List.mem_cons_of_mem x ha)]

/-- With pairwise-distinct keys, joining a set with itself pairs every
row with itself. -/
theorem agreementMatchList_self (S : List AnnRow)
    (hK : S.Pairwise (fun r1 r2 => annKey r1 ≠ annKey r2)) :
    agreementMatchList S S = S.map (fun r => mkAgreementMatch r r) := by
  unfold agreementMatchList
  refine filterMap_eq_map_of_forall S _ _ fun r hr => ?_
  rw [find?_keyMatch_self S hK r hr]

/-- C9 counterexample: over the two-row set whose rows share the join
key `("a", 1, 0)` but carry disjoint boxes, the self-agreement report
has `mean_spatial_iou = 1/2`, not `1`: the claim fails as stated for
arbitrary record sets. -/
theorem C9_counterexample :
    ¬ ((calculate_annotation_agreement (1/2)
        [⟨"a", 1, 0, 0, 1/2, 1/2, 1, 0⟩, ⟨"a", 1, 1/2, 1/2, 1, 1, 1, 0⟩]
        [⟨"a", 1, 0, 0, 1/2, 1/2, 1, 0⟩, ⟨"a", 1, 1/2, 1/2, 1, 1, 1, 0⟩]
        none).mean_spatial_iou = 1) := by
  have h1 : calculate_spatial_iou (⟨0, 0, 1/2, 1/2⟩ : Box) ⟨0, 0, 1/2, 1/2⟩ = 1 :=
    calculate_spatial_iou_self _ (by norm_num [is_valid_box])
  have h2 : calculate_spatial_iou (⟨1/2, 1/2, 1, 1⟩ : Box) ⟨0, 0, 1/2, 1/2⟩ = 0 :=
    calculate_spatial_iou_no_overlap _ _ (by norm_num)
  norm_num [calculate_annotation_agreement, agreementMatchList, List.find?,
    keyMatch, mkAgreementMatch, rowBox, List.filterMap, h1, h2]

/-- C9 amended: for every nonempty record set with pairwise-distinct
`(video_name, timestamp, person_id)` keys and non-degenerate boxes, the
self-agreement report has `mean_spatial_iou = 1`, `label_accuracy = 1`
and `total_matches` equal to the set's size. (The original claim fails
for sets with duplicated join keys, the empty set, or degenerate
boxes.) -/
theorem C9_agreement_self_amended (threshold : ℚ) (S : List AnnRow)
    (hne : S ≠ [])
    (hK : S.Pairwise (fun r1 r2 => annKey r1 ≠ annKey r2))
    (hV : ∀ r ∈ S, is_valid_box (rowBox r) = true) :
    (calculate_annotation_agreement threshold S S none).mean_spatial_iou = 1 ∧
    (calculate_annotation_agreement threshold S S none).label_accuracy = 1 ∧
    (calculate_annotation_agreement threshold S S none).total_matches = S.length := by
  have hms : agreementMatchList S S = S.map (fun r => mkAgreementMatch r r) :=
    agreementMatchList_self S hK
  have hiou : ∀ r ∈ S, (mkAgreementMatch r r).spatial_iou = 1 := fun r hr =>
    calculate_spatial_iou_self (rowBox r) (hV r hr)
  have hlen : (agreementMatchList S S).length = S.length := by
    rw [hms, List.length_map]
  have hnz : ((agreementMatchList S S).length : ℚ) ≠ 0 := by
    rw [hlen]
    exact_mod_cast fun h => hne (List.length_eq_zero.mp h)
  have hempty : (agreementMatchList S S).isEmpty = false := by
    rw [hms]
    cases S with
    | nil => exact absurd rfl hne
    | cons x xs => rfl
  have hsum : ((agreementMatchList S S).map (fun m => m.spatial_iou)).sum =
      (S.length : ℚ) := by
    rw [hms, List.map_map]
    have : S.map (fun r => (mkAgreementMatch r r).spatial_iou) =
        S.map (fun _ => (1 : ℚ)) :=
      List.map_congr_left fun r hr => hiou r hr
    rw [Function.comp_def, this, List.map_const', List.sum_replicate,
      nsmul_eq_mul, mul_one]
  have hlab : (agreementMatchList S S).filter (fun m => m.label_match) =
      agreementMatchList S S := by
    rw [List.filter_eq_self]
    intro m hm
    rw [hms] at hm
    rcases List.mem_map.mp hm with ⟨r, _, rfl⟩
    simp [mkAgreementMatch]
  simp only [calculate_annotation_agreement]
  rw [if_neg (by simp [hempty])]
  dsimp only
  refine ⟨?_, ?_, hlen⟩
  · rw [hsum, hlen, div_self (by exact_mod_cast fun h => hne (List.length_eq_zero.mp h))]
  · rw [hlab, div_self hnz]

/-- C9 witness: the amended theorem applied at the one-row set with a
valid box. -/
theorem C9_agreement_self_amended_witness :
    (calculate_annotation_agreement (1/2)
      [⟨"a", 1, 0, 0, 1/2, 1/2, 1, 0⟩] [⟨"a", 1, 0, 0, 1/2, 1/2, 1, 0⟩]
      none).mean_spatial_iou = 1 :=
  (C9_agreement_self_amended (1/2) [⟨"a", 1, 0, 0, 1/2, 1/2, 1, 0⟩]
    (by simp) (List.pairwise_singleton _ _)
    (fun r hr => by
      rcases List.mem_singleton.mp hr with rfl
      norm_num [is_valid_box, rowBox])).1

/-! ## IdentityPropagator (`train_fixed.py`)

The script mutates the CSV row list in place. Rows carry string fields
that are parsed on use inside try/except blocks; a coordinate or frame
field that fails to parse is embedded as `none`. The `person_id`
column is written back as `str(maxId + 1)` and compared against the
literal string `-1`, which over integer-valued inputs is the integer
comparison embedded here. -/

/-- A row of `train_temp.csv` as `train_fixed.py` sees it: `video` is
`row[0]`, `frame` the parse result of `row[1]`, the four coordinates
the parse results of `row[2..5]`, and `pid` the `person_id` column
`row[-1]`. -/
structure Row where
  video : String
  frame : Option Int
  x1 : Option ℚ
  y1 : Option ℚ
  x2 : Option ℚ
  y2 : Option ℚ
  pid : Int
deriving DecidableEq, Repr

/-- Write the `person_id` column of a row. -/
def setPid (r : Row) (p : Int) : Row :=
  ⟨r.video, r.frame, r.x1, r.y1, r.x2, r.y2, p⟩

/-- The look-ahead loop of `update_train_temp` (lines 37-64): walk up
to `fuel` (source: 10) positions forward from `next_index`, breaking at
the end of the list, a different video, an already-assigned
`person_id`, an unparseable field, a frame gap above 10, or a box
mismatch; every surviving candidate gets `newId` written in place. -/
def lookahead (videoName : String) (x1 y1 x2 y2 : ℚ) (cf : Int) (newId : Int) :
    List Row → Nat → Nat → List Row
  | l, _, 0 => l
  | l, next_index, fuel + 1 =>
      match l[next_index]? with
      | none => l
      | some r =>
          if r.video ≠ videoName then l
          else if r.pid ≠ -1 then l
          else
            match r.frame with
            | none => l
            | some nf =>
                if 10 < |nf - cf| then l
                else
                  match r.x1, r.y1, r.x2, r.y2 with
                  | some xT1, some yT1, some xT2, some yT2 =>
                      if |x1 - xT1| < eps ∧ |y1 - yT1| < eps ∧
                          |x2 - xT2| < eps ∧ |y2 - yT2| < eps then
                        lookahead videoName x1 y1 x2 y2 cf newId
                          (l.set next_index (setPid r newId)) (next_index + 1) fuel
                      else l
                  | _, _, _, _ => l

/-- The seed row's own parsed fields (lines 28-36): the coordinates
and frame of the seed, or `none` when any of them fails to parse (the
`except` branch returns without look-ahead). -/
def seedFields (r : Row) : Option (ℚ × ℚ × ℚ × ℚ × Int) :=
  match r.x1, r.y1, r.x2, r.y2, r.frame with
  | some x1, some y1, some x2, some y2, some cf => some (x1, y1, x2, y2, cf)
  | _, _, _, _, _ => none

/-- `update_train_temp(videoName, index, maxId)` (lines 23-64): write
`maxId + 1` onto the seed row, then, when the seed's own coordinates
and frame parse, run the 10-step look-ahead from the next position. -/
def update_train_temp (l : List Row) (videoName : String) (index : Nat)
    (maxId : Int) : List Row :=
  match l[index]? with
  | none => l
  | some r =>
      let l1 := l.set index (setPid r (maxId + 1))
      match seedFields r with
      | some (x1, y1, x2, y2, cf) =>
          lookahead videoName x1 y1 x2 y2 cf (maxId + 1) l1 (index + 1) 10
      | none => l1

/-- The main loop of lines 71-95, one iteration per index: reset
`maxId` to `-1` on a video change, fold the row's resolved id into
`maxId`, and seed-and-propagate on rows whose `person_id` is `-1`.
`fuel` counts the remaining iterations; `IdentityPropagator_run` below
supplies `l.length`, which matches `for index in range(len(train_temp))`
since every mutation preserves the list length. -/
def runLoop : Nat → List Row → Nat → String → Int → List Row
  | 0, l, _, _, _ => l
  | fuel + 1, l, index, videoName, maxId =>
      match l[index]? with
      | none => l
      | some data =>
          let m1 : Int := if videoName = data.video then maxId else -1
          let m2 : Int := if data.pid > m1 then data.pid else m1
          if data.pid = -1 then
            runLoop fuel (update_train_temp l data.video index m2) (index + 1)
              data.video (m2 + 1)
          else
            runLoop fuel l (index + 1) data.video m2

/-- The identity-propagation pass of `train_fixed.py` over the sorted
data rows. -/
def IdentityPropagator_run (l : List Row) : List Row :=
  runLoop l.length l 0 "" (-1)

/-! ### Shape of the look-ahead mutation

The look-ahead writes `newId` onto the `person_id` column of some
contiguous run of positions starting right at `next_index`, and touches
nothing else. -/

theorem lookahead_spec (videoName : String) (x1 y1 x2 y2 : ℚ) (cf : Int)
    (newId : Int) (fuel : Nat) :
    ∀ (l : List Row) (s : Nat),
    ∃ k, k ≤ fuel ∧ ∀ j,
      (lookahead videoName x1 y1 x2 y2 cf newId l s fuel)[j]? =
        if s ≤ j ∧ j < s + k then (l[j]?).map (fun u => setPid u newId)
        else l[j]? := by
  induction fuel with
  | zero =>
      intro l s
      exact ⟨0, le_refl 0, fun j => (if_neg (by omega)).symm⟩
  | succ fuel ih =>
      intro l s
      rw [lookahead]
      cases hr : l[s]? with
      | none =>
          exact ⟨0, Nat.zero_le _, fun j => (if_neg (by omega)).symm⟩
      | some r =>
          have hsl : s < l.length := by
            by_contra hc
            rw [List.getElem?_eq_none_iff.mpr (by omega)] at hr
            cases hr
          dsimp only
          by_cases h1 : r.video ≠ videoName
          · rw [if_pos h1]
            exact ⟨0, Nat.zero_le _, fun j => (if_neg (by omega)).symm⟩
          · rw [if_neg h1]
            by_cases h2 : r.pid ≠ -1
            · rw [if_pos h2]
              exact ⟨0, Nat.zero_le _, fun j => (if_neg (by omega)).symm⟩
            · rw [if_neg h2]
              cases hf : r.frame with
              | none =>
                  exact ⟨0, Nat.zero_le _, fun j => (if_neg (by omega)).symm⟩
              | some nf =>
                  dsimp only
                  by_cases h3 : 10 < |nf - cf|
                  · rw [if_pos h3]
                    exact ⟨0, Nat.zero_le _, fun j => (if_neg (by omega)).symm⟩
                  · rw [if_neg h3]
                    cases hx1 : r.x1 with
                    | none =>
                        exact ⟨0, Nat.zero_le _, fun j => (if_neg (by omega)).symm⟩
                    | some xT1 =>
                    cases hy1 : r.y1 with
                    | none =>
                        exact ⟨0, Nat.zero_le _, fun j => (if_neg (by omega)).symm⟩
                    | some yT1 =>
                    cases hx2 : r.x2 with
                    | none =>
                        exact ⟨0, Nat.zero_le _, fun j => (if_neg (by omega)).symm⟩
                    | some xT2 =>
                    cases hy2 : r.y2 with
                    | none =>
                        exact ⟨0, Nat.zero_le _, fun j => (if_neg (by omega)).symm⟩
                    | some yT2 =>
                    dsimp only
                    by_cases h4 : |x1 - xT1| < eps ∧ |y1 - yT1| < eps ∧
                        |x2 - xT2| < eps ∧ |y2 - yT2| < eps
                    · rw [if_pos h4]
                      obtain ⟨k, hk, hspec⟩ := ih (l.set s (setPid r newId)) (s + 1)
                      refine ⟨k + 1, by omega, fun j => ?_⟩
                      rw [hspec j]
                      rcases Nat.lt_trichotomy j s with hj | hj | hj
                      · rw [if_neg (by omega), if_neg (by omega),
                          List.getElem?_set_ne (by omega)]
                      · subst hj
                        rw [if_neg (by omega), if_pos (by omega),
                          List.getElem?_set_self hsl, hr]
                        rfl
                      · by_cases hw : j < s + 1 + k
                        · rw [if_pos (by omega), if_pos (by omega),
                            List.getElem?_set_ne (by omega)]
                        · rw [if_neg (by omega), if_neg (by omega),
                            List.getElem?_set_ne (by omega)]
                    · rw [if_neg h4]
                      exact ⟨0, Nat.zero_le _, fun j => (if_neg (by omega)).symm⟩

theorem length_eq_of_getElem?_none_iff {α : Type} (A B : List α)
    (h : ∀ j : Nat, A[j]? = none ↔ B[j]? = none) : A.length = B.length :=
  le_antisymm
    (List.getElem?_eq_none_iff.mp
      ((h B.length).mpr (List.getElem?_eq_none_iff.mpr (le_refl _))))
    (List.getElem?_eq_none_iff.mp
      ((h A.length).mp (List.getElem?_eq_none_iff.mpr (le_refl _))))

theorem lookahead_length (videoName : String) (x1 y1 x2 y2 : ℚ) (cf : Int)
    (newId : Int) (fuel : Nat) (l : List Row) (s : Nat) :
    (lookahead videoName x1 y1 x2 y2 cf newId l s fuel).length = l.length := by
  obtain ⟨k, _, hspec⟩ := lookahead_spec videoName x1 y1 x2 y2 cf newId fuel l s
  refine length_eq_of_getElem?_none_iff _ _ fun j => ?_
  rw [hspec j]
  split
  · exact Option.map_eq_none'
  · exact Iff.rfl

/-- `update_train_temp` writes `maxId + 1` onto the seed at `index` and
onto the `person_id` of a contiguous run of at most 10 following
positions, leaving every other position untouched. -/
theorem update_spec (l : List Row) (v : String) (index : Nat) (m : Int)
    (r : Row) (hr : l[index]? = some r) :
    ∃ k, k ≤ 10 ∧ ∀ j,
      (update_train_temp l v index m)[j]? =
        if j = index then some (setPid r (m + 1))
        else if index + 1 ≤ j ∧ j < index + 1 + k then
          (l[j]?).map (fun u => setPid u (m + 1))
        else l[j]? := by
  have hlen : index < l.length := by
    by_contra hc
    rw [List.getElem?_eq_none_iff.mpr (by omega)] at hr
    cases hr
  simp only [update_train_temp]
  rw [hr]
  dsimp only
  cases hsf : seedFields r with
  | none =>
      dsimp only
      refine ⟨0, by omega, fun j => ?_⟩
      by_cases hj : j = index
      · subst hj
        rw [if_pos rfl, List.getElem?_set_self hlen]
      · rw [if_neg hj, if_neg (by omega), List.getElem?_set_ne (Ne.symm hj)]
  | some tup =>
      obtain ⟨x1, y1, x2, y2, cf⟩ := tup
      dsimp only
      obtain ⟨k, hk, hspec⟩ := lookahead_spec v x1 y1 x2 y2 cf (m + 1) 10
        (l.set index (setPid r (m + 1))) (index + 1)
      refine ⟨k, hk, fun j => ?_⟩
      rw [hspec j]
      by_cases hj : j = index
      · subst hj
        rw [if_neg (by omega), if_pos rfl, List.getElem?_set_self hlen]
      · by_cases hw : index + 1 ≤ j ∧ j < index + 1 + k
        · rw [if_pos hw, if_neg hj, if_pos hw,
            List.getElem?_set_ne (Ne.symm hj)]
        · rw [if_neg hw, if_neg hj, if_neg hw,
            List.getElem?_set_ne (Ne.symm hj)]

theorem update_length (l : List Row) (v : String) (index : Nat) (m : Int) :
    (update_train_temp l v index m).length = l.length := by
  cases hr : l[index]? with
  | none =>
      simp only [update_train_temp]
      rw [hr]
  | some r =>
      obtain ⟨k, _, hspec⟩ := update_spec l v index m r hr
      refine length_eq_of_getElem?_none_iff _ _ fun j => ?_
      rw [hspec j]
      by_cases hj : j = index
      · subst hj
        rw [if_pos rfl]
        simp [hr]
      · rw [if_neg hj]
        split
        · exact Option.map_eq_none'
        · exact Iff.rfl

theorem runLoop_length (fuel : Nat) :
    ∀ (l : List Row) (index : Nat) (vn : String) (m : Int),
    (runLoop fuel l index vn m).length = l.length := by
  induction fuel with
  | zero => intro l index vn m; rfl
  | succ fuel ih =>
      intro l index vn m
      rw [runLoop]
      cases hd : l[index]? with
      | none => rfl
      | some data =>
          dsimp only
          by_cases hp : data.pid = -1
          · rw [if_pos hp, ih, update_length]
          · rw [if_neg hp, ih]

theorem IdentityPropagator_run_length (l : List Row) :
    (IdentityPropagator_run l).length = l.length :=
  runLoop_length l.length l 0 "" (-1)

theorem update_of_getElem?_none (l : List Row) (v : String) (index : Nat)
    (m : Int) (h : l[index]? = none) : update_train_temp l v index m = l := by
  simp only [update_train_temp]
  rw [h]

/-- C10: the seed's new id `maxId + 1` is written before the seed's
coordinate and frame fields are parsed, so a seed with malformed fields
still receives it and only the look-ahead extension is skipped; on a
concrete run, the malformed seed gets id `0` and the following record
becomes its own seed with id `1` instead of inheriting `0`. -/
theorem C10_malformed_seed_assigned_first :
    (∀ (l : List Row) (v : String) (index : Nat) (m : Int) (r : Row),
      l[index]? = some r → seedFields r = none →
      update_train_temp l v index m = l.set index (setPid r (m + 1))) ∧
    IdentityPropagator_run
        [⟨"v", some 10, none, some 0, some 1, some 1, -1⟩,
         ⟨"v", some 10, none, some 0, some 1, some 1, -1⟩] =
      [⟨"v", some 10, none, some 0, some 1, some 1, 0⟩,
       ⟨"v", some 10, none, some 0, some 1, some 1, 1⟩] := by
  constructor
  · intro l v index m r hr hsf
    simp only [update_train_temp]
    rw [hr]
    dsimp only
    rw [hsf]
  · norm_num [IdentityPropagator_run, runLoop, update_train_temp, seedFields,
      lookahead, setPid]

/-- C10 witness: the first part of C10 at a concrete one-row list whose
seed has an unparseable `x1`. -/
theorem C10_malformed_seed_assigned_first_witness :
    update_train_temp [⟨"v", some 10, none, some 0, some 1, some 1, -1⟩]
        "v" 0 (-1) =
      List.set [⟨"v", some 10, none, some 0, some 1, some 1, -1⟩] 0
        (setPid ⟨"v", some 10, none, some 0, some 1, some 1, -1⟩ 0) :=
  C10_malformed_seed_assigned_first.1
    [⟨"v", some 10, none, some 0, some 1, some 1, -1⟩] "v" 0 (-1)
    ⟨"v", some 10, none, some 0, some 1, some 1, -1⟩ rfl rfl

/-- C5: the look-ahead from a seed touches at most the 10 positions
after the seed; a candidate at frame gap 2 within tolerance inherits
the seed's id while a candidate at frame gap 15 becomes a new seed
instead; and the chain stops, without skip-and-retry, at the first
candidate with a different video, an already-assigned id, or a
mismatching box. -/
theorem C5_lookahead_window_behavior :
    (∀ (l : List Row) (v : String) (index : Nat) (m : Int) (j : Nat),
      (j < index ∨ index + 10 < j) →
      (update_train_temp l v index m)[j]? = l[j]?) ∧
    IdentityPropagator_run
        [⟨"v", some 10, some 0, some 0, some 1, some 1, -1⟩,
         ⟨"v", some 12, some 0, some 0, some 1, some 1, -1⟩] =
      [⟨"v", some 10, some 0, some 0, some 1, some 1, 0⟩,
       ⟨"v", some 12, some 0, some 0, some 1, some 1, 0⟩] ∧
    IdentityPropagator_run
        [⟨"v", some 10, some 0, some 0, some 1, some 1, -1⟩,
         ⟨"v", some 25, some 0, some 0, some 1, some 1, -1⟩] =
      [⟨"v", some 10, some 0, some 0, some 1, some 1, 0⟩,
       ⟨"v", some 25, some 0, some 0, some 1, some 1, 1⟩] ∧
    update_train_temp
        [⟨"v", some 10, some 0, some 0, some 1, some 1, -1⟩,
         ⟨"w", some 10, some 0, some 0, some 1, some 1, -1⟩] "v" 0 (-1) =
      [⟨"v", some 10, some 0, some 0, some 1, some 1, 0⟩,
       ⟨"w", some 10, some 0, some 0, some 1, some 1, -1⟩] ∧
    update_train_temp
        [⟨"v", some 10, some 0, some 0, some 1, some 1, -1⟩,
         ⟨"v", some 10, some 0, some 0, some 1, some 1, 7⟩] "v" 0 7 =
      [⟨"v", some 10, some 0, some 0, some 1, some 1, 8⟩,
       ⟨"v", some 10, some 0, some 0, some 1, some 1, 7⟩] ∧
    update_train_temp
        [⟨"v", some 10, some 0, some 0, some 1, some 1, -1⟩,
         ⟨"v", some 10, some (1/2 : ℚ), some 0, some 1, some 1, -1⟩,
         ⟨"v", some 10, some 0, some 0, some 1, some 1, -1⟩] "v" 0 (-1) =
      [⟨"v", some 10, some 0, some 0, some 1, some 1, 0⟩,
       ⟨"v", some 10, some (1/2 : ℚ), some 0, some 1, some 1, -1⟩,
       ⟨"v", some 10, some 0, some 0, some 1, some 1, -1⟩] := by
  refine ⟨fun l v index m j hj => ?_, ?_, ?_, ?_, ?_, ?_⟩
  · cases hr : l[index]? with
    | none => rw [update_of_getElem?_none l v index m hr]
    | some r =>
        obtain ⟨k, hk, hspec⟩ := update_spec l v index m r hr
        rw [hspec j, if_neg (by omega), if_neg (by omega)]
  · norm_num [IdentityPropagator_run, runLoop, update_train_temp, seedFields,
      lookahead, setPid, eps]
  · norm_num [IdentityPropagator_run, runLoop, update_train_temp, seedFields,
      lookahead, setPid, eps]
  · norm_num [update_train_temp, seedFields, lookahead, setPid, eps]
    decide
  · norm_num [update_train_temp, seedFields, lookahead, setPid, eps]
  · norm_num [update_train_temp, seedFields, lookahead, setPid, eps, abs_lt]

/-- C5 witness: the locality part of C5 at a concrete list, index and
out-of-window position. -/
theorem C5_lookahead_window_behavior_witness :
    (update_train_temp [⟨"v", some 10, some 0, some 0, some 1, some 1, -1⟩]
      "v" 5 (-1))[0]? =
      [(⟨"v", some 10, some 0, some 0, some 1, some 1, -1⟩ : Row)][0]? :=
  C5_lookahead_window_behavior.1
    [⟨"v", some 10, some 0, some 0, some 1, some 1, -1⟩] "v" 5 (-1) 0
    (Or.inl (by omega))

/-! ### C3: total resolution -/

theorem runLoop_pid_nonneg (fuel : Nat) :
    ∀ (l : List Row) (index : Nat) (vn : String) (m : Int),
    -1 ≤ m →
    (∀ j : Nat, j < index → ∀ r : Row, l[j]? = some r → 0 ≤ r.pid) →
    (∀ r ∈ l, -1 ≤ r.pid) →
    l.length ≤ index + fuel →
    ∀ r ∈ runLoop fuel l index vn m, 0 ≤ r.pid := by
  induction fuel with
  | zero =>
      intro l index vn m _ hpre _ hfuel r hr
      rw [runLoop] at hr
      obtain ⟨j, hj⟩ := List.getElem?_of_mem hr
      have hjl : j < l.length := by
        by_contra hc
        rw [List.getElem?_eq_none_iff.mpr (by omega)] at hj
        cases hj
      exact hpre j (by omega) r hj
  | succ fuel ih =>
      intro l index vn m hm hpre hall hfuel r hr
      rw [runLoop] at hr
      cases hd : l[index]? with
      | none =>
          rw [hd] at hr
          dsimp only at hr
          obtain ⟨j, hj⟩ := List.getElem?_of_mem hr
          have hjl : j < l.length := by
            by_contra hc
            rw [List.getElem?_eq_none_iff.mpr (by omega)] at hj
            cases hj
          have hind : l.length ≤ index := by
            by_contra hc
            rw [List.getElem?_eq_none_iff] at hd
            omega
          exact hpre j (by omega) r hj
      | some data =>
          rw [hd] at hr
          dsimp only at hr
          set m1 : Int := if vn = data.video then m else -1 with hm1d
          set m2 : Int := if data.pid > m1 then data.pid else m1 with hm2d
          have hm1 : -1 ≤ m1 := by
            rw [hm1d]
            split
            · exact hm
            · exact le_refl _
          have hm2 : -1 ≤ m2 := by
            rw [hm2d]
            split
            · omega
            · exact hm1
          by_cases hp : data.pid = -1
          · rw [if_pos hp] at hr
            obtain ⟨k, hk, hspec⟩ := update_spec l data.video index m2 data hd
            refine ih _ (index + 1) data.video _ (by omega) ?_ ?_ ?_ r hr
            · intro j hj u hu
              rw [hspec j] at hu
              by_cases hji : j = index
              · subst hji
                rw [if_pos rfl] at hu
                cases hu
                simp only [setPid]
                omega
              · rw [if_neg hji, if_neg (by omega)] at hu
                exact hpre j (by omega) u hu
            · intro u hu
              obtain ⟨j, hj⟩ := List.getElem?_of_mem hu
              rw [hspec j] at hj
              by_cases hji : j = index
              · subst hji
                rw [if_pos rfl] at hj
                cases hj
                simp only [setPid]
                omega
              · rw [if_neg hji] at hj
                by_cases hw : index + 1 ≤ j ∧ j < index + 1 + k
                · rw [if_pos hw] at hj
                  cases hx : l[j]? with
                  | none => rw [hx] at hj; cases hj
                  | some w =>
                      rw [hx] at hj
                      cases hj
                      have : -1 ≤ w.pid := hall w (List.getElem?_mem hx)
                      simp only [setPid]
                      omega
                · rw [if_neg hw] at hj
                  exact hall u (List.getElem?_mem hj)
            · rw [update_length]
              omega
          · rw [if_neg hp] at hr
            have hd0 : 0 ≤ data.pid := by
              have : -1 ≤ data.pid := hall data (List.getElem?_mem hd)
              omega
            refine ih l (index + 1) data.video _ hm2 ?_ hall (by omega) r hr
            intro j hj u hu
            by_cases hji : j = index
            · subst hji
              rw [hd] at hu
              cases hu
              exact hd0
            · exact hpre j (by omega) u hu

/-- C3: over any input whose `person_id` values are `-1` or
non-negative, after the propagation pass no record has `person_id`
equal to `-1`; every record's `person_id` is non-negative. -/
theorem C3_total_resolution (l : List Row)
    (h : ∀ r ∈ l, r.pid = -1 ∨ 0 ≤ r.pid) :
    ∀ r ∈ IdentityPropagator_run l, 0 ≤ r.pid ∧ r.pid ≠ -1 := by
  intro r hr
  have h0 : 0 ≤ r.pid := by
    refine runLoop_pid_nonneg l.length l 0 "" (-1) (le_refl _)
      (fun j hj u hu => absurd hj (by omega)) ?_ (by omega) r hr
    intro u hu
    rcases h u hu with h1 | h1 <;> omega
  exact ⟨h0, by omega⟩

/-- C3 witness: the theorem applied to a concrete one-row unresolved
input, whose output row carries id `0`. -/
theorem C3_total_resolution_witness :
    0 ≤ (⟨"v", some 10, some 0, some 0, some 1, some 1, 0⟩ : Row).pid ∧
    (⟨"v", some 10, some 0, some 0, some 1, some 1, 0⟩ : Row).pid ≠ -1 :=
  C3_total_resolution [⟨"v", some 10, some 0, some 0, some 1, some 1, -1⟩]
    (fun r hr => by
      rcases List.mem_singleton.mp hr with rfl
      exact Or.inl rfl)
    ⟨"v", some 10, some 0, some 0, some 1, some 1, 0⟩
    (by norm_num [IdentityPropagator_run, runLoop, update_train_temp,
      seedFields, lookahead, setPid, eps])

/-! ### C6: unsorted input -/

/-- The sort key of `train_fixed.py` line 18:
`data_rows.sort(key=lambda x: (x[0], int(x[1])))` — lexicographic on
`(video_name, frame_index)`. A sorted list is one whose consecutive
rows are in this order. -/
def rowKeyLe (a b : Row) : Prop :=
  a.video < b.video ∨ (a.video = b.video ∧ a.frame.getD 0 ≤ b.frame.getD 0)

/-- The pre-propagation sortedness precondition. -/
def rowSorted (l : List Row) : Prop := l.Chain' rowKeyLe

/-- C6: the propagator is total on unsorted input (it returns a
full-length output, raising nothing), and on a concrete unsorted input
— frames 5, 100, 6 of one video with identical boxes — it assigns ids
`0, 1, 2` while the correctly sorted arrangement of the same records
gets ids `0, 0, 1`: not even the multisets of output records agree. -/
theorem C6_unsorted_silent_incorrect :
    (∀ l : List Row, (IdentityPropagator_run l).length = l.length) ∧
    ([⟨"v", some 5, some 0, some 0, some 1, some 1, -1⟩,
      ⟨"v", some 6, some 0, some 0, some 1, some 1, -1⟩,
      ⟨"v", some 100, some 0, some 0, some 1, some 1, -1⟩] : List Row).Perm
      [⟨"v", some 5, some 0, some 0, some 1, some 1, -1⟩,
       ⟨"v", some 100, some 0, some 0, some 1, some 1, -1⟩,
       ⟨"v", some 6, some 0, some 0, some 1, some 1, -1⟩] ∧
    rowSorted
      [⟨"v", some 5, some 0, some 0, some 1, some 1, -1⟩,
       ⟨"v", some 6, some 0, some 0, some 1, some 1, -1⟩,
       ⟨"v", some 100, some 0, some 0, some 1, some 1, -1⟩] ∧
    ¬ rowSorted
      [⟨"v", some 5, some 0, some 0, some 1, some 1, -1⟩,
       ⟨"v", some 100, some 0, some 0, some 1, some 1, -1⟩,
       ⟨"v", some 6, some 0, some 0, some 1, some 1, -1⟩] ∧
    ¬ (IdentityPropagator_run
        [⟨"v", some 5, some 0, some 0, some 1, some 1, -1⟩,
         ⟨"v", some 100, some 0, some 0, some 1, some 1, -1⟩,
         ⟨"v", some 6, some 0, some 0, some 1, some 1, -1⟩]).Perm
      (IdentityPropagator_run
        [⟨"v", some 5, some 0, some 0, some 1, some 1, -1⟩,
         ⟨"v", some 6, some 0, some 0, some 1, some 1, -1⟩,
         ⟨"v", some 100, some 0, some 0, some 1, some 1, -1⟩]) := by
  have hU : IdentityPropagator_run
      [⟨"v", some 5, some 0, some 0, some 1, some 1, -1⟩,
       ⟨"v", some 100, some 0, some 0, some 1, some 1, -1⟩,
       ⟨"v", some 6, some 0, some 0, some 1, some 1, -1⟩] =
      [⟨"v", some 5, some 0, some 0, some 1, some 1, 0⟩,
       ⟨"v", some 100, some 0, some 0, some 1, some 1, 1⟩,
       ⟨"v", some 6, some 0, some 0, some 1, some 1, 2⟩] := by
    norm_num [IdentityPropagator_run, runLoop, update_train_temp, seedFields,
      lookahead, setPid, eps]
  have hS : IdentityPropagator_run
      [⟨"v", some 5, some 0, some 0, some 1, some 1, -1⟩,
       ⟨"v", some 6, some 0, some 0, some 1, some 1, -1⟩,
       ⟨"v", some 100, some 0, some 0, some 1, some 1, -1⟩] =
      [⟨"v", some 5, some 0, some 0, some 1, some 1, 0⟩,
       ⟨"v", some 6, some 0, some 0, some 1, some 1, 0⟩,
       ⟨"v", some 100, some 0, some 0, some 1, some 1, 1⟩] := by
    norm_num [IdentityPropagator_run, runLoop, update_train_temp, seedFields,
      lookahead, setPid, eps]
  refine ⟨IdentityPropagator_run_length, ?_, ?_, ?_, ?_⟩
  · exact List.Perm.cons _ (List.Perm.swap _ _ _)
  · refine List.chain'_cons.mpr ⟨Or.inr ⟨rfl, by norm_num⟩,
      List.chain'_cons.mpr ⟨Or.inr ⟨rfl, by norm_num⟩, List.chain'_singleton _⟩⟩
  · intro h
    have h2 := (List.chain'_cons.mp (List.chain'_cons.mp h).2).1
    rcases h2 with h2 | h2
    · exact absurd h2 (lt_irrefl _)
    · norm_num at h2
  · intro hperm
    rw [hU, hS] at hperm
    have hmem : (⟨"v", some 6, some 0, some 0, some 1, some 1, 2⟩ : Row) ∈
        [(⟨"v", some 5, some 0, some 0, some 1, some 1, 0⟩ : Row),
         ⟨"v", some 100, some 0, some 0, some 1, some 1, 1⟩,
         ⟨"v", some 6, some 0, some 0, some 1, some 1, 2⟩] := by
      simp
    have := hperm.mem_iff.mp hmem
    simp at this

/-! ### C4: video-scoped sequential numbering -/

/-- The `person_id` at a position (`-1` when out of range; only
in-range positions are ever used). -/
def pidAt (l : List Row) (j : Nat) : Int :=
  (Option.map Row.pid l[j]?).getD (-1)

/-- Two consecutive output ids in a single all-unresolved video either
repeat (a look-ahead chain) or increase by one (a new seed). -/
def idStep (a b : Int) : Prop := b = a ∨ b = a + 1

theorem runLoop_blockSeq (v : String) (fuel : Nat) :
    ∀ (l : List Row) (index : Nat) (vn : String) (m : Int) (c : Nat),
    (∀ r ∈ l, r.video = v) →
    l.length ≤ index + fuel →
    index + c ≤ l.length →
    ((index = 0 ∧ c = 0 ∧ m = -1) ∨ (0 < index ∧ 0 ≤ m)) →
    (0 < index → vn = v) →
    (∀ (j : Nat) (r : Row), index + c ≤ j → l[j]? = some r → r.pid = -1) →
    (∀ (j : Nat) (r : Row), index ≤ j → j < index + c → l[j]? = some r →
      r.pid = m) →
    (∀ j : Nat, j + 1 < index + c → idStep (pidAt l j) (pidAt l (j + 1))) →
    (0 < index + c → pidAt l 0 = 0) →
    (0 < index + c → pidAt l (index + c - 1) = m) →
    (∀ j : Nat, j + 1 < (runLoop fuel l index vn m).length →
      idStep (pidAt (runLoop fuel l index vn m) j)
        (pidAt (runLoop fuel l index vn m) (j + 1))) ∧
    (0 < (runLoop fuel l index vn m).length →
      pidAt (runLoop fuel l index vn m) 0 = 0) := by
  induction fuel with
  | zero =>
      intro l index vn m c hvid hfuel hc hst hvn hsuff hres hchain hhead hlast
      rw [runLoop]
      exact ⟨fun j hj => hchain j (by omega), fun h => hhead (by omega)⟩
  | succ fuel ih =>
      intro l index vn m c hvid hfuel hc hst hvn hsuff hres hchain hhead hlast
      rw [runLoop]
      cases hd : l[index]? with
      | none =>
          have hind : l.length ≤ index := by
            by_contra hcon
            rw [List.getElem?_eq_none_iff] at hd
            omega
          dsimp only
          exact ⟨fun j hj => hchain j (by omega), fun h => hhead (by omega)⟩
      | some data =>
          have hil : index < l.length := by
            by_contra hcon
            rw [List.getElem?_eq_none_iff.mpr (by omega)] at hd
            cases hd
          have hdv : data.video = v := hvid data (List.getElem?_mem hd)
          dsimp only
          set m1 : Int := if vn = data.video then m else -1 with hm1d
          set m2 : Int := if data.pid > m1 then data.pid else m1 with hm2d
          have hm1 : m1 = m := by
            rw [hm1d]
            rcases hst with ⟨_, _, hm⟩ | ⟨hi, _⟩
            · subst hm
              split <;> rfl
            · rw [if_pos (by rw [hvn hi, hdv])]
          by_cases hp : data.pid = -1
          · have hc0 : c = 0 := by
              by_contra hcon
              have hpid := hres index data (le_refl _) (by omega) hd
              rcases hst with ⟨_, h0, _⟩ | ⟨_, hm0⟩
              · exact hcon h0
              · rw [hp] at hpid
                omega
            have hmge : -1 ≤ m := by
              rcases hst with ⟨_, _, h⟩ | ⟨_, h⟩ <;> omega
            have hm2 : m2 = m := by
              rw [hm2d, hm1, hp, if_neg (by omega)]
            rw [if_pos hp]
            obtain ⟨k, hk, hspec⟩ := update_spec l data.video index m2 data hd
            have hulen : (update_train_temp l data.video index m2).length =
                l.length := update_length l data.video index m2
            have hcnew : min k (l.length - (index + 1)) ≤
                l.length - (index + 1) := Nat.min_le_right _ _
            refine ih (update_train_temp l data.video index m2) (index + 1)
              data.video (m2 + 1) (min k (l.length - (index + 1)))
              ?_ ?_ ?_ ?_ ?_ ?_ ?_ ?_ ?_ ?_
            · intro r hr
              obtain ⟨j, hj⟩ := List.getElem?_of_mem hr
              rw [hspec j] at hj
              by_cases hji : j = index
              · rw [if_pos hji] at hj
                cases hj
                exact hdv
              · rw [if_neg hji] at hj
                by_cases hw : index + 1 ≤ j ∧ j < index + 1 + k
                · rw [if_pos hw] at hj
                  cases hx : l[j]? with
                  | none => rw [hx] at hj; cases hj
                  | some w =>
                      rw [hx] at hj
                      cases hj
                      exact hvid w (List.getElem?_mem hx)
                · rw [if_neg hw] at hj
                  exact hvid r (List.getElem?_mem hj)
            · rw [hulen]; omega
            · rw [hulen]; omega
            · refine Or.inr ⟨by omega, by omega⟩
            · intro _; exact hdv
            · intro j r hj hu
              rw [hspec j, if_neg (by omega)] at hu
              by_cases hw : index + 1 ≤ j ∧ j < index + 1 + k
              · rw [if_pos hw] at hu
                rw [List.getElem?_eq_none_iff.mpr (show l.length ≤ j by omega)]
                  at hu
                simp at hu
              · rw [if_neg hw] at hu
                exact hsuff j r (by omega) hu
            · intro j r hj1 hj2 hu
              have hjlen : j < l.length := by omega
              rw [hspec j, if_neg (by omega), if_pos (by omega)] at hu
              rw [List.getElem?_eq_getElem hjlen] at hu
              cases hu
              simp [setPid]
            · intro j hj
              have hjlen : j + 1 < l.length := by omega
              have hgetm : pidAt (update_train_temp l data.video index m2)
                  index = m2 + 1 := by
                unfold pidAt
                rw [hspec index, if_pos rfl]
                rfl
              have hwin : ∀ p : Nat, index + 1 ≤ p →
                  p < index + 1 + min k (l.length - (index + 1)) →
                  pidAt (update_train_temp l data.video index m2) p = m2 + 1 := by
                intro p hp1 hp2
                have hplen : p < l.length := by omega
                unfold pidAt
                rw [hspec p, if_neg (by omega), if_pos (by omega),
                  List.getElem?_eq_getElem hplen]
                rfl
              have hold : ∀ p : Nat, p < index →
                  pidAt (update_train_temp l data.video index m2) p =
                    pidAt l p := by
                intro p hp
                unfold pidAt
                rw [hspec p, if_neg (by omega), if_neg (by omega)]
              rcases Nat.lt_trichotomy (j + 1) index with h1 | h1 | h1
              · rw [hold j (by omega), hold (j + 1) (by omega)]
                exact hchain j (by omega)
              · have hje : j = index + c - 1 := by omega
                have e1 : pidAt (update_train_temp l data.video index m2) j =
                    pidAt l j := hold j (by omega)
                have e2 : pidAt (update_train_temp l data.video index m2)
                    (j + 1) = m2 + 1 := by rw [h1]; exact hgetm
                rw [e1, e2, hje, hlast (by omega), hm2]
                exact Or.inr rfl
              · by_cases hji : j = index
                · have e1 : pidAt (update_train_temp l data.video index m2) j =
                      m2 + 1 := by rw [hji]; exact hgetm
                  have e2 : pidAt (update_train_temp l data.video index m2)
                      (j + 1) = m2 + 1 := hwin (j + 1) (by omega) (by omega)
                  rw [e1, e2]
                  exact Or.inl rfl
                · rw [hwin j (by omega) (by omega),
                    hwin (j + 1) (by omega) (by omega)]
                  exact Or.inl rfl
            · intro _
              by_cases hi0 : index = 0
              · have hgetm : pidAt (update_train_temp l data.video index m2)
                    index = m2 + 1 := by
                  unfold pidAt
                  rw [hspec index, if_pos rfl]
                  rfl
                rcases hst with ⟨_, _, hmm⟩ | ⟨hpos, _⟩
                · rw [hi0] at hgetm ⊢
                  rw [hgetm, hm2, hmm]
                  decide
                · omega
              · have hold : pidAt (update_train_temp l data.video index m2) 0 =
                    pidAt l 0 := by
                  unfold pidAt
                  rw [hspec 0, if_neg (by omega), if_neg (by omega)]
                rw [hold]
                exact hhead (by omega)
            · intro _
              have hpos : index + 1 + min k (l.length - (index + 1)) - 1 =
                  index + min k (l.length - (index + 1)) := by omega
              rw [hpos]
              by_cases hcz : min k (l.length - (index + 1)) = 0
              · rw [hcz]
                unfold pidAt
                rw [Nat.add_zero, hspec index, if_pos rfl]
                rfl
              · have hwlen : index + min k (l.length - (index + 1)) <
                    l.length := by omega
                unfold pidAt
                rw [hspec _, if_neg (by omega), if_pos (by omega),
                  List.getElem?_eq_getElem hwlen]
                rfl
          · have hcpos : 0 < c := by
              by_contra hcon
              have := hsuff index data (by omega) hd
              exact hp this
            have hpidm : data.pid = m := hres index data (le_refl _)
              (by omega) hd
            have hm2 : m2 = m := by
              rw [hm2d, hm1, hpidm, if_neg (by omega)]
            rw [if_neg hp]
            refine ih l (index + 1) data.video m2 (c - 1)
              hvid (by omega) (by omega) ?_ (fun _ => hdv) ?_ ?_ ?_ ?_ ?_
            · rcases hst with ⟨_, hcc, _⟩ | ⟨_, hmm⟩
              · omega
              · exact Or.inr ⟨by omega, by omega⟩
            · intro j r hj hu
              exact hsuff j r (by omega) hu
            · intro j r hj1 hj2 hu
              rw [hm2]
              exact hres j r (by omega) (by omega) hu
            · intro j hj
              exact hchain j (by omega)
            · intro _
              exact hhead (by omega)
            · intro _
              have : index + 1 + (c - 1) - 1 = index + c - 1 := by omega
              rw [this, hm2]
              exact hlast (by omega)

/-- Within one video whose records all enter with `person_id = -1`,
the output ids form consecutive blocks `0, 0, ..., 1, 1, ..., 2, ...`:
consecutive output pids repeat or step up by one, starting at `0`. -/
theorem run_blockSeq (v : String) (l : List Row)
    (hpid : ∀ r ∈ l, r.pid = -1) (hvid : ∀ r ∈ l, r.video = v) :
    ((IdentityPropagator_run l).map Row.pid).Chain' idStep ∧
    (l ≠ [] → ((IdentityPropagator_run l).map Row.pid).head? = some 0) := by
  obtain ⟨hch, hhd⟩ := runLoop_blockSeq v l.length l 0 "" (-1) 0
    hvid (by omega) (by omega) (Or.inl ⟨rfl, rfl, rfl⟩)
    (fun h => absurd h (by omega))
    (fun j r _ hj => hpid r (List.getElem?_mem hj))
    (fun j r _ hj _ => absurd hj (by omega))
    (fun j hj => absurd hj (by omega))
    (fun h => absurd h (by omega))
    (fun h => absurd h (by omega))
  have hlenrun : (IdentityPropagator_run l).length = l.length :=
    IdentityPropagator_run_length l
  constructor
  · rw [List.chain'_iff_get]
    intro i hi
    rw [List.length_map] at hi
    have hi1 : i + 1 < (IdentityPropagator_run l).length := by omega
    have hpi : ∀ (p : Nat) (hp : p < (IdentityPropagator_run l).length),
        ((IdentityPropagator_run l).map Row.pid).get
          ⟨p, by rw [List.length_map]; omega⟩ =
          pidAt (IdentityPropagator_run l) p := by
      intro p hp
      rw [List.get_eq_getElem, List.getElem_map]
      unfold pidAt
      rw [List.getElem?_eq_getElem hp]
      rfl
    rw [hpi i (by omega), hpi (i + 1) (by omega)]
    exact hch i hi1
  · intro hne
    have hlen0 : 0 < (IdentityPropagator_run l).length := by
      rw [hlenrun]
      exact List.length_pos.mpr hne
    obtain ⟨r0, tl, hrun⟩ : ∃ r0 tl, IdentityPropagator_run l = r0 :: tl := by
      cases hcase : IdentityPropagator_run l with
      | nil => rw [hcase] at hlen0; simp at hlen0
      | cons a b => exact ⟨a, b, rfl⟩
    have h0 : pidAt (IdentityPropagator_run l) 0 = 0 := hhd hlen0
    rw [hrun] at h0 ⊢
    unfold pidAt at h0
    simp only [List.getElem?_cons_zero, Option.map_some', Option.getD_some] at h0
    simp only [List.map_cons, List.head?_cons, h0]

/-! ### C4: independence of video groups -/

theorem getElem?_append_add {α : Type} (l0 l : List α) (j : Nat) :
    (l0 ++ l)[l0.length + j]? = l[j]? := by
  rw [List.getElem?_append_right (by omega)]
  congr 1
  omega

theorem set_append_add {α : Type} (l0 l : List α) (j : Nat) (a : α) :
    (l0 ++ l).set (l0.length + j) a = l0 ++ l.set j a := by
  rw [List.set_append_right (l0.length + j) a (by omega)]
  have hj : l0.length + j - l0.length = j := by omega
  rw [hj]

/-- The look-ahead started past an untouched prefix commutes with
prepending that prefix. -/
theorem lookahead_shift (v : String) (x1 y1 x2 y2 : ℚ) (cf : Int)
    (nid : Int) (l0 : List Row) (fuel : Nat) :
    ∀ (l : List Row) (s : Nat),
    lookahead v x1 y1 x2 y2 cf nid (l0 ++ l) (l0.length + s) fuel =
      l0 ++ lookahead v x1 y1 x2 y2 cf nid l s fuel := by
  induction fuel with
  | zero => intro l s; rfl
  | succ fuel ih =>
      intro l s
      rw [lookahead, lookahead, getElem?_append_add]
      cases hr : l[s]? with
      | none => rfl
      | some r =>
          dsimp only
          by_cases h1 : r.video ≠ v
          · rw [if_pos h1, if_pos h1]
          · rw [if_neg h1, if_neg h1]
            by_cases h2 : r.pid ≠ -1
            · rw [if_pos h2, if_pos h2]
            · rw [if_neg h2, if_neg h2]
              cases hf : r.frame with
              | none => rfl
              | some nf =>
                  dsimp only
                  by_cases h3 : 10 < |nf - cf|
                  · rw [if_pos h3, if_pos h3]
                  · rw [if_neg h3, if_neg h3]
                    cases hx1 : r.x1 with
                    | none => rfl
                    | some xT1 =>
                    cases hy1 : r.y1 with
                    | none => rfl
                    | some yT1 =>
                    cases hx2 : r.x2 with
                    | none => rfl
                    | some xT2 =>
                    cases hy2 : r.y2 with
                    | none => rfl
                    | some yT2 =>
                    dsimp only
                    by_cases h4 : |x1 - xT1| < eps ∧ |y1 - yT1| < eps ∧
                        |x2 - xT2| < eps ∧ |y2 - yT2| < eps
                    · rw [if_pos h4, if_pos h4, set_append_add]
                      have ha : l0.length + s + 1 = l0.length + (s + 1) := by
                        omega
                      rw [ha, ih]
                    · rw [if_neg h4, if_neg h4]

/-- `update_train_temp` started past an untouched prefix commutes with
prepending that prefix. -/
theorem update_shift (l0 : List Row) (l : List Row) (v : String) (i : Nat)
    (m : Int) :
    update_train_temp (l0 ++ l) v (l0.length + i) m =
      l0 ++ update_train_temp l v i m := by
  simp only [update_train_temp]
  rw [getElem?_append_add]
  cases hr : l[i]? with
  | none => rfl
  | some r =>
      dsimp only
      cases hsf : seedFields r with
      | none => rw [set_append_add]
      | some tup =>
          obtain ⟨x1, y1, x2, y2, cf⟩ := tup
          dsimp only
          rw [set_append_add]
          have ha : l0.length + i + 1 = l0.length + (i + 1) := by omega
          rw [ha, lookahead_shift]

/-- The main loop started past an untouched prefix commutes with
prepending that prefix. -/
theorem runLoop_shift (l0 : List Row) (fuel : Nat) :
    ∀ (l : List Row) (j : Nat) (vn : String) (m : Int),
    runLoop fuel (l0 ++ l) (l0.length + j) vn m =
      l0 ++ runLoop fuel l j vn m := by
  induction fuel with
  | zero => intro l j vn m; rfl
  | succ fuel ih =>
      intro l j vn m
      rw [runLoop, runLoop, getElem?_append_add]
      cases hd : l[j]? with
      | none => rfl
      | some data =>
          dsimp only
          by_cases hp : data.pid = -1
          · rw [if_pos hp, if_pos hp]
            have ha : l0.length + j + 1 = l0.length + (j + 1) := by omega
            rw [update_shift, ha, ih]
          · rw [if_neg hp, if_neg hp]
            have ha : l0.length + j + 1 = l0.length + (j + 1) := by omega
            rw [ha, ih]

theorem runLoop_out_of_range (fuel : Nat) (l : List Row) (index : Nat)
    (vn : String) (m : Int) (h : l.length ≤ index) :
    runLoop fuel l index vn m = l := by
  cases fuel with
  | zero => rfl
  | succ fuel =>
      rw [runLoop, List.getElem?_eq_none_iff.mpr h]

/-- `runLoop` does not depend on the exact fuel once the fuel covers
the remaining indices. -/
theorem runLoop_fuel_irrel (fuel : Nat) :
    ∀ (fuel2 : Nat) (l : List Row) (index : Nat) (vn : String) (m : Int),
    l.length ≤ index + fuel → l.length ≤ index + fuel2 →
    runLoop fuel l index vn m = runLoop fuel2 l index vn m := by
  induction fuel with
  | zero =>
      intro fuel2 l index vn m h1 _
      rw [runLoop, runLoop_out_of_range fuel2 l index vn m (by omega)]
  | succ fuel ih =>
      intro fuel2 l index vn m h1 h2
      cases fuel2 with
      | zero =>
          rw [runLoop, runLoop_out_of_range (fuel + 1) l index vn m (by omega)]
      | succ fuel2 =>
          rw [runLoop, runLoop]
          cases hd : l[index]? with
          | none => rfl
          | some data =>
              dsimp only
              by_cases hp : data.pid = -1
              · rw [if_pos hp, if_pos hp]
                refine ih fuel2 _ (index + 1) data.video _ ?_ ?_ <;>
                  rw [update_length] <;> omega
              · rw [if_neg hp, if_neg hp]
                exact ih fuel2 l (index + 1) data.video _ (by omega) (by omega)

/-- Starting the main loop at position 0 of a video group resets
`maxId`: any incoming `videoName` that differs from the group's video
(or an incoming `maxId` of `-1`) gives the same result as a fresh run. -/
theorem runLoop_reset (l2 : List Row) (b : String) (h2 : ∀ r ∈ l2, r.video = b)
    (vn : String) (m : Int) (hvm : vn ≠ b ∨ m = -1) (fuel : Nat)
    (hf : l2.length ≤ fuel) :
    runLoop fuel l2 0 vn m = IdentityPropagator_run l2 := by
  cases l2 with
  | nil =>
      unfold IdentityPropagator_run
      rw [runLoop_out_of_range fuel [] 0 vn m (by simp),
        runLoop_out_of_range ([].length) [] 0 "" (-1) (by simp)]
  | cons r tl =>
      cases fuel with
      | zero => simp at hf
      | succ fuel =>
          unfold IdentityPropagator_run
          rw [List.length_cons, runLoop, runLoop, List.getElem?_cons_zero]
          dsimp only
          have hrb : r.video = b := h2 r (List.mem_cons_self r tl)
          have hm1L : (if vn = r.video then m else -1) = (-1 : Int) := by
            rcases hvm with h | h
            · rw [if_neg (by rw [hrb]; exact h)]
            · rw [h]
              split <;> rfl
          have hm1R : (if "" = r.video then (-1 : Int) else -1) = (-1 : Int) := by
            split <;> rfl
          rw [hm1L, hm1R]
          rw [List.length_cons] at hf
          by_cases hp : r.pid = -1
          · rw [if_pos hp, if_pos hp]
            refine runLoop_fuel_irrel fuel tl.length _ 1 r.video _ ?_ ?_ <;>
              rw [update_length, List.length_cons] <;> omega
          · rw [if_neg hp, if_neg hp]
            refine runLoop_fuel_irrel fuel tl.length _ 1 r.video _ ?_ ?_ <;>
              rw [List.length_cons] <;> omega

/-- The look-ahead never writes past the video boundary: appending a
second group with a different video does not change what it does to the
first group. -/
theorem lookahead_append (v : String) (x1 y1 x2 y2 : ℚ) (cf nid : Int)
    (l2 : List Row) (h2 : ∀ r ∈ l2, r.video ≠ v) (fuel : Nat) :
    ∀ (l1 : List Row) (s : Nat),
    lookahead v x1 y1 x2 y2 cf nid (l1 ++ l2) s fuel =
      lookahead v x1 y1 x2 y2 cf nid l1 s fuel ++ l2 := by
  induction fuel with
  | zero => intro l1 s; rfl
  | succ fuel ih =>
      intro l1 s
      rw [lookahead, lookahead]
      by_cases hs : s < l1.length
      · rw [List.getElem?_append_left hs, List.getElem?_eq_getElem hs]
        dsimp only
        by_cases h1 : l1[s].video ≠ v
        · rw [if_pos h1, if_pos h1]
        · rw [if_neg h1, if_neg h1]
          by_cases hpd : l1[s].pid ≠ -1
          · rw [if_pos hpd, if_pos hpd]
          · rw [if_neg hpd, if_neg hpd]
            cases hfm : l1[s].frame with
            | none => rfl
            | some nf =>
                dsimp only
                by_cases h3 : 10 < |nf - cf|
                · rw [if_pos h3, if_pos h3]
                · rw [if_neg h3, if_neg h3]
                  cases hx1 : l1[s].x1 with
                  | none => rfl
                  | some xT1 =>
                  cases hy1 : l1[s].y1 with
                  | none => rfl
                  | some yT1 =>
                  cases hx2 : l1[s].x2 with
                  | none => rfl
                  | some xT2 =>
                  cases hy2 : l1[s].y2 with
                  | none => rfl
                  | some yT2 =>
                  dsimp only
                  by_cases h4 : |x1 - xT1| < eps ∧ |y1 - yT1| < eps ∧
                      |x2 - xT2| < eps ∧ |y2 - yT2| < eps
                  · rw [if_pos h4, if_pos h4, List.set_append_left _ _ hs, ih]
                  · rw [if_neg h4, if_neg h4]
      · have hnone : l1[s]? = none := List.getElem?_eq_none_iff.mpr (by omega)
        rw [hnone]
        cases hr2 : (l1 ++ l2)[s]? with
        | none => rfl
        | some r =>
            dsimp only
            have hrv : r.video ≠ v := by
              refine h2 r ?_
              rw [List.getElem?_append_right (by omega)] at hr2
              exact List.getElem?_mem hr2
            rw [if_pos hrv]

/-- `update_train_temp` on a seed inside the first video group ignores
an appended second group of a different video. -/
theorem update_append (l1 l2 : List Row) (v : String) (index : Nat) (m : Int)
    (hs : index < l1.length) (h2 : ∀ r ∈ l2, r.video ≠ v) :
    update_train_temp (l1 ++ l2) v index m =
      update_train_temp l1 v index m ++ l2 := by
  simp only [update_train_temp]
  rw [List.getElem?_append_left hs, List.getElem?_eq_getElem hs]
  dsimp only
  cases hsf : seedFields l1[index] with
  | none => rw [List.set_append_left _ _ hs]
  | some tup =>
      obtain ⟨x1, y1, x2, y2, cf⟩ := tup
      dsimp only
      rw [List.set_append_left _ _ hs]
      exact lookahead_append v x1 y1 x2 y2 cf (m + 1) l2 h2 10 _ (index + 1)

/-- `update_train_temp` only rewrites `person_id` columns: every output
row keeps the video of some input row. -/
theorem update_video (l : List Row) (v : String) (i : Nat) (m : Int) :
    ∀ r ∈ update_train_temp l v i m, ∃ u ∈ l, u.video = r.video := by
  intro r hr
  cases hd : l[i]? with
  | none =>
      rw [update_of_getElem?_none l v i m hd] at hr
      exact ⟨r, hr, rfl⟩
  | some data =>
      obtain ⟨k, _, hspec⟩ := update_spec l v i m data hd
      obtain ⟨j, hj⟩ := List.getElem?_of_mem hr
      rw [hspec j] at hj
      by_cases hji : j = i
      · rw [if_pos hji] at hj
        cases hj
        exact ⟨data, List.getElem?_mem hd, rfl⟩
      · rw [if_neg hji] at hj
        by_cases hw : i + 1 ≤ j ∧ j < i + 1 + k
        · rw [if_pos hw] at hj
          cases hx : l[j]? with
          | none => rw [hx] at hj; simp at hj
          | some u =>
              rw [hx] at hj
              cases hj
              exact ⟨u, List.getElem?_mem hx, rfl⟩
        · rw [if_neg hw] at hj
          exact ⟨r, List.getElem?_mem hj, rfl⟩

/-- Processing a first video group followed by a second group of a
different video factors into independent runs. -/
theorem runLoop_append_main (v b : String) (hab : b ≠ v) (l2 : List Row)
    (h2 : ∀ r ∈ l2, r.video = b) (fuel : Nat) :
    ∀ (l1 : List Row) (index : Nat) (vn : String) (m : Int),
    (∀ r ∈ l1, r.video = v) →
    index ≤ l1.length →
    l1.length + l2.length ≤ index + fuel →
    ((index = 0 ∧ m = -1) ∨ (0 < index ∧ vn = v)) →
    runLoop fuel (l1 ++ l2) index vn m =
      runLoop fuel l1 index vn m ++ IdentityPropagator_run l2 := by
  induction fuel with
  | zero =>
      intro l1 index vn m h1 hidx hf hst
      have hl2 : l2 = [] := List.length_eq_zero.mp (by omega)
      subst hl2
      rw [runLoop, runLoop]
      rfl
  | succ fuel ih =>
      intro l1 index vn m h1 hidx hf hst
      by_cases hb : index < l1.length
      · rw [runLoop, runLoop, List.getElem?_append_left hb,
          List.getElem?_eq_getElem hb]
        dsimp only
        have hdv : l1[index].video = v := h1 _ (List.getElem_mem _)
        by_cases hp : l1[index].pid = -1
        · rw [if_pos hp, if_pos hp,
            update_append l1 l2 l1[index].video index _ hb
              (fun r hr => by rw [h2 r hr, hdv]; exact hab)]
          refine ih (update_train_temp l1 l1[index].video index _) (index + 1)
            l1[index].video _ ?_ ?_ ?_ (Or.inr ⟨by omega, hdv⟩)
          · intro r hr
            obtain ⟨u, hu, huv⟩ := update_video _ _ _ _ r hr
            rw [← huv]
            exact h1 u hu
          · rw [update_length]
            omega
          · rw [update_length]
            omega
        · rw [if_neg hp, if_neg hp]
          exact ih l1 (index + 1) l1[index].video _ h1 (by omega) (by omega)
            (Or.inr ⟨by omega, hdv⟩)
      · have hieq : index = l1.length := by omega
        subst hieq
        have hshift : runLoop (fuel + 1) (l1 ++ l2) l1.length vn m =
            l1 ++ runLoop (fuel + 1) l2 0 vn m := by
          have h := runLoop_shift l1 (fuel + 1) l2 0 vn m
          simpa using h
        rw [hshift, runLoop_out_of_range (fuel + 1) l1 l1.length vn m
          (le_refl _)]
        congr 1
        refine runLoop_reset l2 b h2 vn m ?_ (fuel + 1) (by omega)
        rcases hst with ⟨_, hm⟩ | ⟨_, hvnv⟩
        · exact Or.inr hm
        · exact Or.inl (by rw [hvnv]; exact fun hc => hab hc.symm)

/-- Two sorted-adjacent video groups are processed independently. -/
theorem run_append (v b : String) (hab : b ≠ v) (l1 l2 : List Row)
    (h1 : ∀ r ∈ l1, r.video = v) (h2 : ∀ r ∈ l2, r.video = b) :
    IdentityPropagator_run (l1 ++ l2) =
      IdentityPropagator_run l1 ++ IdentityPropagator_run l2 := by
  unfold IdentityPropagator_run
  rw [List.length_append]
  have hmain := runLoop_append_main v b hab l2 h2 (l1.length + l2.length) l1 0
    "" (-1) h1 (by omega) (by omega) (Or.inl ⟨rfl, rfl⟩)
  rw [hmain]
  congr 1
  exact runLoop_fuel_irrel (l1.length + l2.length) l1.length l1 0 "" (-1)
    (by omega) (by omega)

/-- C4: person-id numbering is video-scoped: a group of one video
followed by a group of another is processed exactly as the two groups
run separately (`maxId` restarts at the boundary), and within a single
all-unresolved video the assigned ids are the consecutive blocks
`0, 0, ..., 1, ..., 2, ...` — sequential from `0` in order of first
seed assignment. -/
theorem C4_video_scoped_numbering :
    (∀ (a b : String) (l1 l2 : List Row), b ≠ a →
      (∀ r ∈ l1, r.video = a) → (∀ r ∈ l2, r.video = b) →
      IdentityPropagator_run (l1 ++ l2) =
        IdentityPropagator_run l1 ++ IdentityPropagator_run l2) ∧
    (∀ (v : String) (l : List Row),
      (∀ r ∈ l, r.pid = -1) → (∀ r ∈ l, r.video = v) →
      ((IdentityPropagator_run l).map Row.pid).Chain' idStep ∧
      (l ≠ [] → ((IdentityPropagator_run l).map Row.pid).head? = some 0)) :=
  ⟨fun a b l1 l2 hab h1 h2 => run_append a b hab l1 l2 h1 h2,
   fun v l hpid hvid => run_blockSeq v l hpid hvid⟩

/-- C4 witness: the independence part applied to two one-row groups of
different videos; the second group's numbering restarts at `0`. -/
theorem C4_video_scoped_numbering_witness :
    IdentityPropagator_run
        ([⟨"a", some 1, some 0, some 0, some 1, some 1, -1⟩] ++
         [⟨"b", some 1, some 0, some 0, some 1, some 1, -1⟩]) =
      IdentityPropagator_run [⟨"a", some 1, some 0, some 0, some 1, some 1, -1⟩]
        ++ IdentityPropagator_run
          [⟨"b", some 1, some 0, some 0, some 1, some 1, -1⟩] :=
  C4_video_scoped_numbering.1 "a" "b"
    [⟨"a", some 1, some 0, some 0, some 1, some 1, -1⟩]
    [⟨"b", some 1, some 0, some 0, some 1, some 1, -1⟩]
    (by decide)
    (fun r hr => by rcases List.mem_singleton.mp hr with rfl; rfl)
    (fun r hr => by rcases List.mem_singleton.mp hr with rfl; rfl)

/-- C1 witness: the reference-equality part of C1 at a concrete pair of
lists. -/
theorem C1_boxmatcher_matches_reference_witness :
    BoxMatcher_match [⟨"1", 5, 101/1000, 101/1000, 301/1000, 301/1000, 3⟩]
        [⟨"1", 5, 1/10, 1/10, 3/10, 3/10, 7⟩] =
      specBoxMatch [⟨"1", 5, 101/1000, 101/1000, 301/1000, 301/1000, 3⟩]
        [⟨"1", 5, 1/10, 1/10, 3/10, 3/10, 7⟩] :=
  (C1_boxmatcher_matches_reference.1
    [⟨"1", 5, 101/1000, 101/1000, 301/1000, 301/1000, 3⟩]
    [⟨"1", 5, 1/10, 1/10, 3/10, 3/10, 7⟩]).1

/-- C6 witness: the totality part of C6 at a concrete one-row list. -/
theorem C6_unsorted_silent_incorrect_witness :
    (IdentityPropagator_run
      [⟨"v", some 5, some 0, some 0, some 1, some 1, -1⟩]).length =
      ([⟨"v", some 5, some 0, some 0, some 1, some 1, -1⟩] : List Row).length :=
  C6_unsorted_silent_incorrect.1
    [⟨"v", some 5, some 0, some 0, some 1, some 1, -1⟩]
